import Mathlib

/-
Verification of the Pi-to-Pi network benchmark (network_benchmark.py).

The embedding models bytes as natural numbers below 256 and byte strings as
lists.  The 8-byte float64 send timestamp field is kept as its serialized
bytes (an opaque 8-byte list): none of the verified claims depends on
floating-point arithmetic on the timestamp value, only on the framing.
Rational numbers stand in for the float latency values in the statistics
model; the percentile index computation int(len * 0.95) agrees with the
integer floor 19 * len / 20 for every feasible list length, and is modelled
as such.
-/

namespace NetworkBenchmark

/-- Little-endian serialization of a natural number into w bytes, as
struct.pack produces for the fixed-width fields. -/
def leBytes : Nat → Nat → List Nat
  | 0, _ => []
  | w + 1, v => v % 256 :: leBytes w (v / 256)

/-- Little-endian value of a byte list, as struct.unpack reads an
unsigned field. -/
def leVal : List Nat → Nat
  | [] => 0
  | b :: bs => b + 256 * leVal bs

/-- Signed little-endian 32-bit decoding, as struct.unpack reads the
payload-length field with format code i (two-complement). -/
def int32OfBytes (bs : List Nat) : Int :=
  let u := leVal bs
  if u < 2 ^ 31 then (u : Int) else (u : Int) - 2 ^ 32

/-- struct.pack with format I: succeeds exactly for values in unsigned
32-bit range. -/
def packUInt32 (v : Nat) : Option (List Nat) :=
  if v < 2 ^ 32 then some (leBytes 4 v) else none

/-- struct.pack with format i applied to a payload length (a nonnegative
int): succeeds exactly when the value fits the signed 32-bit field. -/
def packLenInt32 (n : Nat) : Option (List Nat) :=
  if n < 2 ^ 31 then some (leBytes 4 n) else none

/-- The framing of _create_packet (lines 210-213) over an arbitrary payload:
header = MSG_ID (4, unsigned LE) + TIMESTAMP (8, serialized float64 bytes)
+ PAYLOAD_LENGTH (4, signed LE), followed by the payload. -/
def createPacketWith (msg_id : Nat) (tsBytes : List Nat) (payload : List Nat) :
    Option (List Nat) :=
  match packUInt32 msg_id, packLenInt32 payload.length with
  | some idB, some lenB => some (idB ++ tsBytes ++ lenB ++ payload)
  | _, _ => none

/-- _create_packet: the payload it builds (line 208) is the byte 97
(character a) repeated payload_size times. -/
def createPacket (msg_id : Nat) (tsBytes : List Nat) (payloadSize : Nat) :
    Option (List Nat) :=
  createPacketWith msg_id tsBytes (List.replicate payloadSize 97)

/-- The payload-length field as _parse_packet and _recv_tcp_packet decode it
from bytes 12..15 of the data. -/
def declaredLen (data : List Nat) : Int :=
  int32OfBytes ((data.drop 12).take 4)

/-- Normalized stop index of the Python slice data[16:b] on a list of the
given length: a negative b counts from the end and clamps at 0, a
nonnegative b clamps at the length. -/
def pySliceStop (len0 : Nat) (b : Int) : Nat :=
  if b < 0 then ((len0 : Int) + b).toNat else min b.toNat len0

/-- _parse_packet (lines 215-224): rejects data shorter than 16 bytes,
otherwise unpacks the header and returns the slice data[16:16+payload_len]
with Python slice semantics (the slice clamps, it never fails). -/
def parsePacket (data : List Nat) : Except String (Nat × List Nat × List Nat) :=
  if data.length < 16 then .error "Packet too short"
  else
    .ok (leVal (data.take 4), (data.drop 4).take 8,
      (data.take (pySliceStop data.length (16 + declaredLen data))).drop 16)

/- ### Basic codec lemmas -/

theorem leBytes_length (w v : Nat) : (leBytes w v).length = w := by
  induction w generalizing v with
  | zero => rfl
  | succ w ih => simp [leBytes, ih]

theorem leVal_leBytes (w v : Nat) (h : v < 256 ^ w) : leVal (leBytes w v) = v := by
  induction w generalizing v with
  | zero =>
    interval_cases v
    rfl
  | succ w ih =>
    have hdiv : v / 256 < 256 ^ w := by
      rw [Nat.div_lt_iff_lt_mul (by norm_num)]
      calc v < 256 ^ (w + 1) := h
        _ = 256 ^ w * 256 := by ring
    simp [leBytes, leVal, ih _ hdiv, Nat.mod_add_div]

theorem int32OfBytes_leBytes (n : Nat) (h : n < 2 ^ 31) :
    int32OfBytes (leBytes 4 n) = (n : Int) := by
  have hv : leVal (leBytes 4 n) = n :=
    leVal_leBytes 4 n (lt_trans h (by norm_num))
  simp only [int32OfBytes, hv]
  rw [if_pos (by omega : n < 2 ^ 31)]

/-- Shape of a well-formed frame: a frame built from in-range fields parses
back to exactly its components. -/
theorem parsePacket_frame (msg_id : Nat) (ts payload : List Nat)
    (hid : msg_id < 2 ^ 32) (hlen : payload.length < 2 ^ 31)
    (hts : ts.length = 8) :
    parsePacket (leBytes 4 msg_id ++ ts ++ leBytes 4 payload.length ++ payload)
      = .ok (msg_id, ts, payload) := by
  have hAlen : (leBytes 4 msg_id).length = 4 := leBytes_length 4 msg_id
  have hLlen : (leBytes 4 payload.length).length = 4 :=
    leBytes_length 4 payload.length
  simp only [List.append_assoc]
  have hflen :
      (leBytes 4 msg_id ++ (ts ++ (leBytes 4 payload.length ++ payload))).length
        = 16 + payload.length := by
    simp [hAlen, hLlen, hts]; omega
  have htake4 :
      (leBytes 4 msg_id ++ (ts ++ (leBytes 4 payload.length ++ payload))).take 4
        = leBytes 4 msg_id := List.take_left' hAlen
  have hdrop4 :
      (leBytes 4 msg_id ++ (ts ++ (leBytes 4 payload.length ++ payload))).drop 4
        = ts ++ (leBytes 4 payload.length ++ payload) := List.drop_left' hAlen
  have hdrop12 :
      (leBytes 4 msg_id ++ (ts ++ (leBytes 4 payload.length ++ payload))).drop 12
        = leBytes 4 payload.length ++ payload := by
    have h1 :
        (leBytes 4 msg_id ++ (ts ++ (leBytes 4 payload.length ++ payload))).drop 12
          = ((leBytes 4 msg_id ++
              (ts ++ (leBytes 4 payload.length ++ payload))).drop 4).drop 8 := by
      rw [List.drop_drop]
    rw [h1, hdrop4, List.drop_left' hts]
  have htakets :
      ((leBytes 4 msg_id ++ (ts ++ (leBytes 4 payload.length ++ payload))).drop 4).take 8
        = ts := by
    rw [hdrop4, List.take_left' hts]
  have hdecl :
      declaredLen (leBytes 4 msg_id ++ (ts ++ (leBytes 4 payload.length ++ payload)))
        = (payload.length : Int) := by
    rw [declaredLen, hdrop12, List.take_left' hLlen, int32OfBytes_leBytes _ hlen]
  have hstop :
      pySliceStop
        (leBytes 4 msg_id ++ (ts ++ (leBytes 4 payload.length ++ payload))).length
        (16 + declaredLen
          (leBytes 4 msg_id ++ (ts ++ (leBytes 4 payload.length ++ payload))))
        = 16 + payload.length := by
    rw [hdecl, pySliceStop, hflen]
    have hpos : ¬ ((16 : Int) + (payload.length : Int) < 0) := by omega
    simp only [hpos, if_false]
    omega
  have hdrop16 :
      (leBytes 4 msg_id ++ (ts ++ (leBytes 4 payload.length ++ payload))).drop 16
        = payload := by
    have h16 :
        (leBytes 4 msg_id ++ (ts ++ (leBytes 4 payload.length ++ payload))).drop 16
          = ((leBytes 4 msg_id ++
              (ts ++ (leBytes 4 payload.length ++ payload))).drop 12).drop 4 := by
      rw [List.drop_drop]
    rw [h16, hdrop12, List.drop_left' hLlen]
  have hid' : leVal (leBytes 4 msg_id) = msg_id :=
    leVal_leBytes 4 msg_id (by simpa using hid)
  rw [parsePacket]
  have hnot :
      ¬ (leBytes 4 msg_id ++ (ts ++ (leBytes 4 payload.length ++ payload))).length
        < 16 := by omega
  simp only [hnot, if_false, htake4, htakets, hstop, hid']
  rw [← hflen, List.take_length, hdrop16]

/- ### C1: encode/decode round trip -/

/-- C1: for every message id in unsigned 32-bit range and every payload
whose length fits the signed 32-bit length field, the frame built by the
_create_packet framing parses back (via _parse_packet) to the same message
id and the same payload bytes. -/
theorem c1_roundtrip (msg_id : Nat) (ts payload : List Nat)
    (hid : msg_id < 2 ^ 32) (hlen : payload.length < 2 ^ 31)
    (hts : ts.length = 8) :
    ∃ frame, createPacketWith msg_id ts payload = some frame ∧
      parsePacket frame = .ok (msg_id, ts, payload) := by
  refine ⟨leBytes 4 msg_id ++ ts ++ leBytes 4 payload.length ++ payload, ?_, ?_⟩
  · have hid2 : msg_id < 4294967296 := by omega
    have hlen2 : payload.length < 2147483648 := by omega
    rw [createPacketWith, packUInt32, packLenInt32]
    simp [hid2, hlen2, List.append_assoc]
  · exact parsePacket_frame msg_id ts payload hid hlen hts

/-- C1 witness: concrete round trip with id 7, an arbitrary 8-byte
timestamp and a 3-byte payload. -/
theorem c1_roundtrip_witness :
    ∃ frame,
      createPacketWith 7 [1, 2, 3, 4, 5, 6, 7, 8] [10, 20, 30] = some frame ∧
      parsePacket frame = .ok (7, [1, 2, 3, 4, 5, 6, 7, 8], [10, 20, 30]) :=
  c1_roundtrip 7 [1, 2, 3, 4, 5, 6, 7, 8] [10, 20, 30]
    (by norm_num) (by norm_num) (by norm_num)

/- ### C7: header decoding failure condition -/

/-- C7 (amended): _parse_packet fails exactly when fewer than 16 bytes are
supplied; for at least 16 bytes with a nonnegative length field it returns
the decoded id, timestamp bytes and the first payload_length bytes after
the header (clamped to what is available). A negative length field does
not fail (see the counterexample). -/
theorem c7_malformed_header (data : List Nat) :
    ((∃ e, parsePacket data = .error e) ↔ data.length < 16) ∧
    (16 ≤ data.length → 0 ≤ declaredLen data →
      parsePacket data = .ok (leVal (data.take 4), (data.drop 4).take 8,
        (data.drop 16).take (declaredLen data).toNat)) := by
  constructor
  · constructor
    · rintro ⟨e, he⟩
      by_contra hge
      rw [parsePacket, if_neg hge] at he
      simp at he
    · intro hlt
      exact ⟨"Packet too short", by rw [parsePacket, if_pos hlt]⟩
  · intro h16 hnn
    have hb : ¬ (16 + declaredLen data < 0) := by omega
    have hstop : pySliceStop data.length (16 + declaredLen data)
        = min (16 + (declaredLen data).toNat) data.length := by
      rw [pySliceStop, if_neg hb]
      omega
    have h3 : (data.take (pySliceStop data.length (16 + declaredLen data))).drop 16
        = (data.drop 16).take (declaredLen data).toNat := by
      rw [hstop, List.drop_take, List.take_eq_take]
      simp only [List.length_drop]
      omega
    rw [parsePacket, if_neg (by omega), h3]

/-- C7 counterexample: a 16-byte input whose length field decodes to the
negative value -1 is NOT rejected; _parse_packet returns it successfully
with an empty payload, refuting the only-if direction of the claim. -/
theorem c7_counterexample :
    declaredLen [7, 0, 0, 0, 0, 0, 0, 0, 0, 0, 0, 0, 255, 255, 255, 255] < 0 ∧
    parsePacket [7, 0, 0, 0, 0, 0, 0, 0, 0, 0, 0, 0, 255, 255, 255, 255]
      = .ok (7, [0, 0, 0, 0, 0, 0, 0, 0], []) := by
  constructor
  · decide
  · rfl

/-- C7 witness: the amended theorem applied to a short input and to a
concrete 16-byte all-zero input. -/
theorem c7_malformed_header_witness :
    (∃ e, parsePacket [1, 2, 3] = .error e) ∧
    parsePacket (List.replicate 16 0)
      = .ok (leVal ((List.replicate 16 0).take 4),
          ((List.replicate 16 0).drop 4).take 8,
          ((List.replicate 16 0).drop 16).take
            (declaredLen (List.replicate 16 0)).toNat) :=
  ⟨(c7_malformed_header [1, 2, 3]).1.mpr (by decide),
   (c7_malformed_header (List.replicate 16 0)).2 (by decide) (by decide)⟩

/- ### C9: encoding totality -/

/-- C9: for every message id in unsigned 32-bit range and payload size
fitting the signed 32-bit length field, _create_packet succeeds and
returns a 16-byte header concatenated with the fixed-pattern payload of
byte 97 (character a) repeated payload_size times. -/
theorem c9_encode_total (msg_id payloadSize : Nat) (tsBytes : List Nat)
    (hid : msg_id < 2 ^ 32) (hsize : payloadSize < 2 ^ 31)
    (hts : tsBytes.length = 8) :
    ∃ pkt, createPacket msg_id tsBytes payloadSize = some pkt ∧
      ∃ header, header.length = 16 ∧
        pkt = header ++ List.replicate payloadSize 97 ∧
        pkt.length = 16 + payloadSize := by
  refine ⟨(leBytes 4 msg_id ++ tsBytes ++ leBytes 4 payloadSize)
      ++ List.replicate payloadSize 97, ?_,
    leBytes 4 msg_id ++ tsBytes ++ leBytes 4 payloadSize, ?_, rfl, ?_⟩
  · have hid2 : msg_id < 4294967296 := by omega
    have hsize2 : payloadSize < 2147483648 := by omega
    rw [createPacket, createPacketWith, packUInt32, packLenInt32]
    simp [hid2, hsize2, List.append_assoc]
  · simp [leBytes_length, hts]
  · simp [leBytes_length, hts]
    omega

/-- C9 witness: encoding succeeds at id 1, an all-zero timestamp and
payload size 5. -/
theorem c9_encode_total_witness :
    ∃ pkt, createPacket 1 (List.replicate 8 0) 5 = some pkt ∧
      ∃ header, header.length = 16 ∧
        pkt = header ++ List.replicate 5 97 ∧
        pkt.length = 16 + 5 :=
  c9_encode_total 1 5 (List.replicate 8 0) (by norm_num) (by norm_num) (by decide)

/- ### Metrics aggregation (_display_results / _save_results) -/

/-- The Python builtin min over a nonempty list, a left fold of binary
min; the code never applies it to an empty list. -/
def pyMin : List ℚ → ℚ
  | [] => 0
  | x :: xs => xs.foldl min x

/-- The Python builtin max over a nonempty list, a left fold of binary
max. -/
def pyMax : List ℚ → ℚ
  | [] => 0
  | x :: xs => xs.foldl max x

/-- The latency summary emitted by _display_results (lines 415-421) and
stored by _save_results (lines 463-470). -/
structure LatencyStats where
  min_ms : ℚ
  max_ms : ℚ
  avg_ms : ℚ
  median_ms : ℚ
  p95_ms : ℚ
  p99_ms : ℚ
deriving DecidableEq

/-- The statistics computation of _display_results and _save_results: sort
the latency list ascending in place (modelled by insertionSort, which on a
linearly ordered type returns the same list as any sorting algorithm),
then read off min, max, the arithmetic average, the median at index
len / 2, and the nearest-rank percentiles at the truncated indices
int(len * 0.95) = 19 * len / 20 and int(len * 0.99) = 99 * len / 100
(the float product never changes the floor for any feasible length).
Latency floats are modelled as exact rationals. Returns none on an empty
list, for which the code computes no statistics. -/
def latencyStats (latencies : List ℚ) : Option LatencyStats :=
  match latencies with
  | [] => none
  | _ :: _ =>
    let sorted := List.insertionSort (fun a b => a ≤ b) latencies
    some { min_ms := pyMin sorted
           max_ms := pyMax sorted
           avg_ms := sorted.sum / (sorted.length : ℚ)
           median_ms := sorted.getD (sorted.length / 2) 0
           p95_ms := sorted.getD (19 * sorted.length / 20) 0
           p99_ms := sorted.getD (99 * sorted.length / 100) 0 }

/-- The median as the claim words it: the LOWER of the two middle elements
of the value-sorted sequence on even-length input, written to compare
against the median the code computes. -/
def specMedianLowerMiddle (latencies : List ℚ) : ℚ :=
  let sorted := List.insertionSort (fun a b => a ≤ b) latencies
  sorted.getD ((sorted.length - 1) / 2) 0

theorem foldl_min_of_le (x : ℚ) (xs : List ℚ) (h : ∀ y ∈ xs, x ≤ y) :
    xs.foldl min x = x := by
  induction xs with
  | nil => rfl
  | cons y ys ih =>
    have hxy : min x y = x := min_eq_left (h y (List.mem_cons_self y ys))
    simp only [List.foldl_cons, hxy]
    exact ih fun z hz => h z (List.mem_cons_of_mem y hz)

theorem pyMin_eq_headI (l : List ℚ) (hs : l.Sorted (· ≤ ·)) (hne : l ≠ []) :
    pyMin l = l.headI := by
  match l with
  | x :: xs =>
    have hx : ∀ y ∈ xs, x ≤ y := (List.sorted_cons.mp hs).1
    simp only [pyMin, List.headI]
    exact foldl_min_of_le x xs hx

theorem foldl_max_sorted (x : ℚ) (xs : List ℚ)
    (hs : (x :: xs).Sorted (· ≤ ·)) :
    xs.foldl max x = (x :: xs).getLastI := by
  induction xs generalizing x with
  | nil => rfl
  | cons y ys ih =>
    have hxy : x ≤ y := (List.sorted_cons.mp hs).1 y (List.mem_cons_self y ys)
    have hs2 : (y :: ys).Sorted (· ≤ ·) := (List.sorted_cons.mp hs).2
    have hlast : (x :: y :: ys).getLastI = (y :: ys).getLastI := by
      rw [List.getLastI_eq_getLast?, List.getLastI_eq_getLast?,
        List.getLast?_cons_cons]
    simp only [List.foldl_cons, max_eq_right hxy, hlast]
    exact ih y hs2

theorem pyMax_eq_getLastI (l : List ℚ) (hs : l.Sorted (· ≤ ·)) (hne : l ≠ []) :
    pyMax l = l.getLastI := by
  match l with
  | x :: xs =>
    simp only [pyMax]
    exact foldl_max_sorted x xs hs

/- ### C2: latency statistics -/

/-- C2 (amended): for every nonempty latency list the statistics are
computed over a value-sorted permutation of the input, with min its first
element, max its last, mean the arithmetic average of the input, median
the element at index len / 2 (the UPPER of the two middles on even
length, not the lower one the claim states), and p95/p99 the elements at
the nearest-rank indices floor(0.95 * len) and floor(0.99 * len). -/
theorem c2_latency_stats (l : List ℚ) (hne : l ≠ []) :
    ∃ s : List ℚ, s.Perm l ∧ s.Sorted (· ≤ ·) ∧
      latencyStats l = some
        { min_ms := s.headI
          max_ms := s.getLastI
          avg_ms := l.sum / (l.length : ℚ)
          median_ms := s.getD (l.length / 2) 0
          p95_ms := s.getD (19 * l.length / 20) 0
          p99_ms := s.getD (99 * l.length / 100) 0 } := by
  obtain ⟨x, xs, rfl⟩ := List.exists_cons_of_ne_nil hne
  refine ⟨List.insertionSort (fun a b => a ≤ b) (x :: xs),
    List.perm_insertionSort _ _, List.sorted_insertionSort _ _, ?_⟩
  have hperm := List.perm_insertionSort (fun a b => a ≤ b) (x :: xs)
  have hlen := hperm.length_eq
  have hsum := hperm.sum_eq
  have hsorted := List.sorted_insertionSort (fun a b => a ≤ b) (x :: xs)
  have hsne : List.insertionSort (fun a b => a ≤ b) (x :: xs) ≠ [] := by
    intro hnil
    rw [hnil] at hlen
    simp at hlen
  simp only [latencyStats, hlen, hsum, pyMin_eq_headI _ hsorted hsne,
    pyMax_eq_getLastI _ hsorted hsne]

/-- C2 counterexample: on the even-length latency list [1, 2, 3, 4] the
code computes median 3 (the upper middle), while the lower of the two
middles demanded by the claim is 2. -/
theorem c2_counterexample :
    (latencyStats [1, 2, 3, 4]).map LatencyStats.median_ms = some 3 ∧
    specMedianLowerMiddle [1, 2, 3, 4] = 2 ∧ (3 : ℚ) ≠ 2 := by
  refine ⟨by rfl, by rfl, by norm_num⟩

/-- C2 witness: the amended statistics theorem applied to the concrete
latency list [5, 1, 4, 2]. -/
theorem c2_latency_stats_witness :
    ∃ s : List ℚ, s.Perm [5, 1, 4, 2] ∧ s.Sorted (· ≤ ·) ∧
      latencyStats [5, 1, 4, 2] = some
        { min_ms := s.headI
          max_ms := s.getLastI
          avg_ms := ([5, 1, 4, 2] : List ℚ).sum
            / (([5, 1, 4, 2] : List ℚ).length : ℚ)
          median_ms := s.getD (([5, 1, 4, 2] : List ℚ).length / 2) 0
          p95_ms := s.getD (19 * ([5, 1, 4, 2] : List ℚ).length / 20) 0
          p99_ms := s.getD (99 * ([5, 1, 4, 2] : List ℚ).length / 100) 0 } :=
  c2_latency_stats [5, 1, 4, 2] (List.cons_ne_nil _ _)

/- ### C3: packet loss percentage -/

/-- The loss percentage of _save_results (lines 449-454): 0 when the sent
dictionary is empty, otherwise (sent - received) / max(sent, 1) * 100,
with exact rationals standing in for Python float division. -/
def packetLossPct (sent received : Nat) : ℚ :=
  if sent = 0 then 0
  else ((sent : ℚ) - (received : ℚ)) / ((max sent 1 : Nat) : ℚ) * 100

/-- C3: with received ≤ sent, the reported loss equals
(sent - received) / max(sent, 1) * 100, always lies in [0, 100], and is 0
when nothing was sent. -/
theorem c3_packet_loss (sent received : Nat) (h : received ≤ sent) :
    packetLossPct sent received
      = ((sent : ℚ) - (received : ℚ)) / ((max sent 1 : Nat) : ℚ) * 100 ∧
    0 ≤ packetLossPct sent received ∧
    packetLossPct sent received ≤ 100 ∧
    (sent = 0 → packetLossPct sent received = 0) := by
  rcases Nat.eq_zero_or_pos sent with hz | hp
  · subst hz
    have hr : received = 0 := Nat.le_zero.mp h
    subst hr
    norm_num [packetLossPct]
  · have hne : sent ≠ 0 := Nat.pos_iff_ne_zero.mp hp
    have hmax : max sent 1 = sent := by omega
    have hs : (0 : ℚ) < sent := by exact_mod_cast hp
    have hrs : (received : ℚ) ≤ sent := by exact_mod_cast h
    have hr0 : (0 : ℚ) ≤ received := by positivity
    rw [packetLossPct, if_neg hne, hmax]
    refine ⟨rfl, ?_, ?_, fun h0 => absurd h0 hne⟩
    · apply mul_nonneg _ (by norm_num)
      apply div_nonneg (by linarith) (le_of_lt hs)
    · have h1 : ((sent : ℚ) - received) / sent ≤ 1 := by
        rw [div_le_one hs]
        linarith
      calc ((sent : ℚ) - received) / sent * 100 ≤ 1 * 100 :=
            mul_le_mul_of_nonneg_right h1 (by norm_num)
        _ = 100 := by norm_num

/-- C3 witness: 4 sent, 1 received gives 75 percent loss inside the
claimed formula and bounds. -/
theorem c3_packet_loss_witness :
    packetLossPct 4 1
      = ((4 : ℚ) - (1 : ℚ)) / ((max 4 1 : Nat) : ℚ) * 100 ∧
    0 ≤ packetLossPct 4 1 ∧
    packetLossPct 4 1 ≤ 100 ∧
    (4 = 0 → packetLossPct 4 1 = 0) :=
  c3_packet_loss 4 1 (by norm_num)

/- ### Receiver model: stream re-segmentation and loop step -/

/-- One result of a blocking socket read in the stream receiver: the bytes
sock.recv returned (the empty list meaning the peer closed the connection,
exactly as empty Python bytes do), or a socket timeout exception. -/
inductive RecvEvent where
  | data (bytes : List Nat)
  | timeout
deriving DecidableEq

/-- _recv_exactly (lines 371-382): accumulate sock.recv chunks until n
bytes are collected; an empty read (peer closed) or a timeout yields the
empty result, discarding any partial data. A chunk never exceeds the
n - len(data) bytes requested, which the take enforces. The event list
models the successive reads the socket serves; an exhausted event list
behaves as a timeout. The count n is an Int because _recv_tcp_packet
passes the signed decoded payload length straight through; for n <= 0 the
while loop body never runs and the empty accumulator is returned. -/
def recvExactly (n : Int) : List RecvEvent → List Nat → List Nat × List RecvEvent
  | [], acc => if (acc.length : Int) < n then ([], []) else (acc, [])
  | e :: rest, acc =>
    if (acc.length : Int) < n then
      match e with
      | .timeout => ([], rest)
      | .data [] => ([], rest)
      | .data (b :: l) =>
          recvExactly n rest (acc ++ (b :: l).take (n.toNat - acc.length))
    else (acc, e :: rest)

/-- _recv_tcp_packet (lines 356-369): read exactly 16 header bytes; an
empty header propagates as no data; otherwise decode the signed payload
length from the header and read exactly that many payload bytes,
returning header plus whatever the payload read produced (possibly
nothing) -- truncation is NOT detected here. -/
def recvTcpPacket (evs : List RecvEvent) : List Nat × List RecvEvent :=
  let hp := recvExactly 16 evs []
  if hp.1 = [] then ([], hp.2)
  else
    let pp := recvExactly (declaredLen hp.1) hp.2 []
    (hp.1 ++ pp.1, pp.2)

/-- The fields of a PacketMetrics record observed by the verified claims.
The float receive time and the latency derived from it are wall-clock
quantities abstracted away; the send timestamp is kept as its 8
serialized bytes. -/
structure PacketMetricsModel where
  msg_id : Nat
  send_time : List Nat
  payload_size : Nat
deriving DecidableEq

/-- The per-iteration receiver state: the consecutive-timeout counter and
the metrics list appended to under the lock. -/
structure RecvState where
  consecutive_timeouts : Nat
  metrics : List PacketMetricsModel
deriving DecidableEq

/-- Whether a loop iteration falls through to the next iteration or
breaks out of the while loop. -/
inductive StepResult where
  | cont
  | halt
deriving DecidableEq

/-- max_timeouts (line 299). -/
def maxTimeouts : Nat := 20

/-- One iteration of the _receiver_loop body (lines 301-352) applied to
the data obtained for this iteration: empty data (idle timeout and closed
connection alike) increments the consecutive-timeout counter and breaks
only at the max_timeouts threshold; a parse failure breaks the loop (the
generic except clause at line 349); a parsed frame resets the counter and
appends a metric whose payload size is the length of the parsed
payload. -/
def receiverStep (st : RecvState) (data : List Nat) : RecvState × StepResult :=
  if data = [] then
    let t := st.consecutive_timeouts + 1
    ({ st with consecutive_timeouts := t },
     if maxTimeouts ≤ t then .halt else .cont)
  else
    match parsePacket data with
    | .error _ => (st, .halt)
    | .ok (id, ts, payload) =>
        ({ consecutive_timeouts := 0,
           metrics := st.metrics ++ [⟨id, ts, payload.length⟩] }, .cont)

/- ### C10: all-or-nothing reads -/

theorem recvExactly_nil_or_exact (n : Int) (evs : List RecvEvent) :
    ∀ acc : List Nat, (acc.length : Int) ≤ n →
      (recvExactly n evs acc).1 = [] ∨
      ((recvExactly n evs acc).1.length : Int) = n := by
  induction evs with
  | nil =>
    intro acc hle
    simp only [recvExactly]
    split
    · exact Or.inl rfl
    · rename_i hge
      right
      simp only
      omega
  | cons e rest ih =>
    intro acc hle
    simp only [recvExactly]
    split
    · rename_i hlt
      match e with
      | .timeout => exact Or.inl rfl
      | .data [] => exact Or.inl rfl
      | .data (b :: l) =>
        apply ih
        have : ((b :: l).take (n.toNat - acc.length)).length
            = min (b :: l).length (n.toNat - acc.length) := by
          simp [List.length_take, Nat.min_comm]
        simp only [List.length_append, this]
        omega
    · rename_i hge
      right
      simp only
      omega

/-- C10: _recv_exactly returns either exactly the n requested bytes or
the empty byte string, never a nonempty proper prefix, no matter how the
underlying reads segment the stream. -/
theorem c10_recv_all_or_nothing (evs : List RecvEvent) (n : Nat) :
    (recvExactly (n : Int) evs []).1 = [] ∨
    (recvExactly (n : Int) evs []).1.length = n := by
  rcases recvExactly_nil_or_exact (n : Int) evs [] (by simp) with h | h
  · exact Or.inl h
  · right
    exact_mod_cast h

/- ### C4: truncated payload in stream mode -/

/-- C4 (amended): when the 16-byte header arrives but the positive-length
payload cannot be read in full, _recv_tcp_packet returns the bare header;
the receiver loop then parses it as a frame with an empty payload,
records a PacketMetrics with payload_size 0, and CONTINUES -- it does not
treat the truncation as unrecoverable. -/
theorem c4_truncated_payload (evs : List RecvEvent) (st : RecvState)
    (h16 : (recvTcpPacket evs).1.length = 16)
    (hpos : 0 < declaredLen (recvTcpPacket evs).1) :
    receiverStep st (recvTcpPacket evs).1
      = ({ consecutive_timeouts := 0,
           metrics := st.metrics ++
             [⟨leVal ((recvTcpPacket evs).1.take 4),
               ((recvTcpPacket evs).1.drop 4).take 8, 0⟩] },
         .cont) := by
  have hne : (recvTcpPacket evs).1 ≠ [] := by
    intro h
    rw [h] at h16
    simp at h16
  have hstop : pySliceStop (recvTcpPacket evs).1.length
      (16 + declaredLen (recvTcpPacket evs).1) = 16 := by
    rw [pySliceStop, if_neg (by omega)]
    rw [h16]
    omega
  have hsl : ((recvTcpPacket evs).1.take
        (pySliceStop (recvTcpPacket evs).1.length
          (16 + declaredLen (recvTcpPacket evs).1))).drop 16 = [] := by
    rw [hstop]
    apply List.drop_eq_nil_of_le
    simp
  have hparse : parsePacket (recvTcpPacket evs).1
      = .ok (leVal ((recvTcpPacket evs).1.take 4),
          ((recvTcpPacket evs).1.drop 4).take 8, []) := by
    rw [parsePacket, if_neg (by omega), hsl]
  rw [receiverStep, if_neg hne, hparse]
  rfl

/-- C4 counterexample: the stream delivers a full header declaring a
5-byte payload, then times out. The loop iteration records a metric with
payload size 0 and continues, instead of ending the receiver loop. -/
theorem c4_counterexample :
    (recvTcpPacket [RecvEvent.data
        [1, 0, 0, 0, 0, 0, 0, 0, 0, 0, 0, 0, 5, 0, 0, 0],
      RecvEvent.timeout]).1
      = [1, 0, 0, 0, 0, 0, 0, 0, 0, 0, 0, 0, 5, 0, 0, 0] ∧
    declaredLen [1, 0, 0, 0, 0, 0, 0, 0, 0, 0, 0, 0, 5, 0, 0, 0] = 5 ∧
    receiverStep ⟨0, []⟩ [1, 0, 0, 0, 0, 0, 0, 0, 0, 0, 0, 0, 5, 0, 0, 0]
      = (⟨0, [⟨1, [0, 0, 0, 0, 0, 0, 0, 0], 0⟩]⟩, .cont) := by
  refine ⟨rfl, by decide, rfl⟩

/-- C4 witness: the amended theorem applied to a stream that delivers a
header declaring 7 payload bytes and then closes. -/
theorem c4_truncated_payload_witness :
    receiverStep ⟨5, []⟩
        (recvTcpPacket [RecvEvent.data
            [3, 0, 0, 0, 2, 2, 2, 2, 2, 2, 2, 2, 7, 0, 0, 0],
          RecvEvent.data []]).1
      = ({ consecutive_timeouts := 0,
           metrics := [] ++
             [⟨leVal ((recvTcpPacket [RecvEvent.data
                  [3, 0, 0, 0, 2, 2, 2, 2, 2, 2, 2, 2, 7, 0, 0, 0],
                RecvEvent.data []]).1.take 4),
               ((recvTcpPacket [RecvEvent.data
                  [3, 0, 0, 0, 2, 2, 2, 2, 2, 2, 2, 2, 7, 0, 0, 0],
                RecvEvent.data []]).1.drop 4).take 8, 0⟩] },
         .cont) :=
  c4_truncated_payload _ ⟨5, []⟩ (by decide) (by decide)

/- ### C5: closed connection versus idle timeout -/

/-- C5 (amended): a closed connection (a read returning zero bytes) and a
socket timeout are indistinguishable to the receiver: both make
_recv_tcp_packet yield empty data, which increments the
consecutive-timeout counter, and the loop breaks only when the counter
reaches the max_timeouts threshold -- not at the moment the peer
closes. -/
theorem c5_closed_counts_as_timeout (rest : List RecvEvent) (st : RecvState) :
    recvTcpPacket (RecvEvent.data [] :: rest) = ([], rest) ∧
    recvTcpPacket (RecvEvent.timeout :: rest) = ([], rest) ∧
    receiverStep st []
      = ({ st with consecutive_timeouts := st.consecutive_timeouts + 1 },
         if maxTimeouts ≤ st.consecutive_timeouts + 1 then .halt
         else .cont) :=
  ⟨rfl, rfl, rfl⟩

/-- C5 counterexample: at the iteration where the peer closes the
connection (with a fresh timeout counter), the receiver loop continues
rather than ending. -/
theorem c5_counterexample :
    receiverStep ⟨0, []⟩ (recvTcpPacket [RecvEvent.data []]).1
      = (⟨1, []⟩, .cont) ∧ StepResult.cont ≠ StepResult.halt := by
  refine ⟨rfl, by decide⟩

/- ### C6: over-declared datagram length -/

/-- C6 (amended): a datagram of at least 16 bytes whose declared payload
length is nonnegative and exceeds the payload bytes actually present does
NOT fail decoding: the Python slice clamps, _parse_packet returns the
available bytes, and the loop appends a PacketMetrics with the clamped
payload size and continues. -/
theorem c6_datagram_truncated (data : List Nat) (st : RecvState)
    (h16 : 16 ≤ data.length) (hnn : 0 ≤ declaredLen data)
    (hgt : (data.length : Int) < 16 + declaredLen data) :
    parsePacket data
      = .ok (leVal (data.take 4), (data.drop 4).take 8, data.drop 16) ∧
    receiverStep st data
      = ({ consecutive_timeouts := 0,
           metrics := st.metrics ++
             [⟨leVal (data.take 4), (data.drop 4).take 8,
               data.length - 16⟩] },
         .cont) := by
  have hstop : pySliceStop data.length (16 + declaredLen data)
      = data.length := by
    rw [pySliceStop, if_neg (by omega)]
    omega
  have hparse : parsePacket data
      = .ok (leVal (data.take 4), (data.drop 4).take 8, data.drop 16) := by
    rw [parsePacket, if_neg (by omega), hstop, List.take_length]
  refine ⟨hparse, ?_⟩
  have hne : data ≠ [] := by
    intro h
    rw [h] at h16
    simp at h16
  rw [receiverStep, if_neg hne, hparse]
  simp

/-- C6 counterexample: a 19-byte datagram declaring a 10-byte payload but
carrying 3 bytes decodes successfully, a metric with payload size 3 is
appended, and the loop continues -- the frame is not dropped. -/
theorem c6_counterexample :
    declaredLen [2, 0, 0, 0, 0, 0, 0, 0, 0, 0, 0, 0, 10, 0, 0, 0, 97, 97, 97]
      = 10 ∧
    parsePacket [2, 0, 0, 0, 0, 0, 0, 0, 0, 0, 0, 0, 10, 0, 0, 0, 97, 97, 97]
      = .ok (2, [0, 0, 0, 0, 0, 0, 0, 0], [97, 97, 97]) ∧
    receiverStep ⟨0, []⟩
        [2, 0, 0, 0, 0, 0, 0, 0, 0, 0, 0, 0, 10, 0, 0, 0, 97, 97, 97]
      = (⟨0, [⟨2, [0, 0, 0, 0, 0, 0, 0, 0], 3⟩]⟩, .cont) := by
  refine ⟨by decide, rfl, rfl⟩

/-- C6 witness: the amended theorem applied to a 17-byte datagram
declaring a 4-byte payload but carrying a single byte. -/
theorem c6_datagram_truncated_witness :
    parsePacket [9, 0, 0, 0, 1, 1, 1, 1, 1, 1, 1, 1, 4, 0, 0, 0, 5]
      = .ok (leVal ([9, 0, 0, 0, 1, 1, 1, 1, 1, 1, 1, 1, 4, 0, 0, 0, 5].take 4),
          ([9, 0, 0, 0, 1, 1, 1, 1, 1, 1, 1, 1, 4, 0, 0, 0, 5].drop 4).take 8,
          [9, 0, 0, 0, 1, 1, 1, 1, 1, 1, 1, 1, 4, 0, 0, 0, 5].drop 16) ∧
    receiverStep ⟨3, []⟩ [9, 0, 0, 0, 1, 1, 1, 1, 1, 1, 1, 1, 4, 0, 0, 0, 5]
      = ({ consecutive_timeouts := 0,
           metrics := [] ++
             [⟨leVal ([9, 0, 0, 0, 1, 1, 1, 1, 1, 1, 1, 1, 4, 0, 0, 0, 5].take 4),
               ([9, 0, 0, 0, 1, 1, 1, 1, 1, 1, 1, 1, 4, 0, 0, 0, 5].drop 4).take 8,
               [9, 0, 0, 0, 1, 1, 1, 1, 1, 1, 1, 1, 4, 0, 0, 0, 5].length - 16⟩] },
         .cont) :=
  c6_datagram_truncated [9, 0, 0, 0, 1, 1, 1, 1, 1, 1, 1, 1, 4, 0, 0, 0, 5]
    ⟨3, []⟩ (by decide) (by decide) (by decide)

/- ### C8: TCP connect retry -/

/-- max_retries (line 173). -/
def maxRetries : Nat := 10

/-- The connect retry loop of _setup_tcp (lines 172-184): attempt k
succeeds when outcome k is true and raises ConnectionRefusedError
otherwise; on a refusal that is not the final remaining attempt the code
sleeps one second and retries, and the final refusal re-raises. Returns
the successful attempt index (or none when the refusal escaped) paired
with the number of one-second sleeps performed. -/
def connectLoop (outcome : Nat → Bool) : Nat → Nat → Option Nat × Nat
  | _, 0 => (none, 0)
  | attempt, rem + 1 =>
    if outcome attempt then (some attempt, 0)
    else if rem = 0 then (none, 0)
    else
      let r := connectLoop outcome (attempt + 1) rem
      (r.1, r.2 + 1)

/-- The sender connection setup: the retry loop over max_retries = 10
total attempts. -/
def setupTcp (outcome : Nat → Bool) : Option Nat × Nat :=
  connectLoop outcome 0 maxRetries

theorem connectLoop_all_fail (outcome : Nat → Bool) :
    ∀ rem attempt, 1 ≤ rem →
      (∀ i, i < rem → outcome (attempt + i) = false) →
      connectLoop outcome attempt rem = (none, rem - 1) := by
  intro rem
  induction rem with
  | zero => omega
  | succ r ih =>
    intro attempt _ hall
    rw [connectLoop]
    rw [if_neg (by simpa using hall 0 (by omega))]
    rcases Nat.eq_zero_or_pos r with hr | hr
    · subst hr
      simp
    · rw [if_neg (by omega)]
      have hrec : connectLoop outcome (attempt + 1) r = (none, r - 1) := by
        apply ih (attempt + 1) hr
        intro i hi
        have := hall (i + 1) (by omega)
        simpa [Nat.add_assoc, Nat.add_comm 1 i] using this
      simp only [hrec]
      simp
      omega

theorem connectLoop_first_success (outcome : Nat → Bool) :
    ∀ k attempt rem, k < rem → outcome (attempt + k) = true →
      (∀ i, i < k → outcome (attempt + i) = false) →
      connectLoop outcome attempt rem = (some (attempt + k), k) := by
  intro k
  induction k with
  | zero =>
    intro attempt rem hlt hk _
    obtain ⟨r, rfl⟩ : ∃ r, rem = r + 1 := ⟨rem - 1, by omega⟩
    rw [connectLoop, if_pos (by simpa using hk)]
    simp
  | succ k ih =>
    intro attempt rem hlt hk hfail
    obtain ⟨r, rfl⟩ : ∃ r, rem = r + 1 := ⟨rem - 1, by omega⟩
    rw [connectLoop]
    rw [if_neg (by simpa using hfail 0 (by omega))]
    rw [if_neg (by omega)]
    have hrec : connectLoop outcome (attempt + 1) r
        = (some (attempt + 1 + k), k) := by
      apply ih (attempt + 1) r (by omega)
      · have := hk
        rw [show attempt + (k + 1) = attempt + 1 + k by omega] at this
        exact this
      · intro i hi
        have := hfail (i + 1) (by omega)
        rw [show attempt + (i + 1) = attempt + 1 + i by omega] at this
        exact this
    simp only [hrec]
    have : attempt + 1 + k = attempt + (k + 1) := by omega
    simp [this]

/-- C8: the sender connect loop makes up to max_retries = 10 attempts
with a one-second sleep after each refused attempt except the last: if
every attempt is refused the refusal escapes after the 10th attempt (9
sleeps, one between each pair of consecutive attempts), and if attempt k
is the first to succeed the setup completes without error after exactly k
sleeps. -/
theorem c8_connect_retries (outcome : Nat → Bool) :
    ((∀ i, i < maxRetries → outcome i = false) →
      setupTcp outcome = (none, maxRetries - 1)) ∧
    (∀ k, k < maxRetries → outcome k = true →
      (∀ i, i < k → outcome i = false) →
      setupTcp outcome = (some k, k)) := by
  constructor
  · intro hall
    apply connectLoop_all_fail outcome maxRetries 0 (by norm_num [maxRetries])
    intro i hi
    simpa using hall i hi
  · intro k hk hsucc hfail
    have := connectLoop_first_success outcome k 0 maxRetries hk
      (by simpa using hsucc) (by simpa using hfail)
    simpa using this

/-- C8 witness: with every attempt refused the setup fails after 9
sleeps; with the first success at attempt 3 it succeeds after 3
sleeps. -/
theorem c8_connect_retries_witness :
    setupTcp (fun _ => false) = (none, 9) ∧
    setupTcp (fun i => decide (i = 3)) = (some 3, 3) :=
  ⟨(c8_connect_retries (fun _ => false)).1 (fun i _ => rfl),
   (c8_connect_retries (fun i => decide (i = 3))).2 3
     (by norm_num [maxRetries]) (by decide)
     (fun i hi => by
       simp only [decide_eq_false_iff_not]
       omega)⟩

end NetworkBenchmark
